/-
Verification of the geospatial ranking core of the SF street-parking
recommender (src/rank.py, src/utils.py, src/geocode.py, src/constants.py).

The embedding is a shallow one over the reals:
  * pandas DataFrames become Lean lists of `Record`s; the positional row
    index (the record id) is attached with `List.enum` where needed;
  * numpy float arithmetic becomes exact real arithmetic (`Real.sin`,
    `Real.arcsin`, `Real.sqrt`, `Real.rpow`);
  * `np.argmin` (first index attaining the minimum) becomes the fold
    `foldMinBy`, which replaces its best candidate only on a strict
    decrease, hence keeps the first minimum;
  * `DataFrame.sort_values(col, ascending=False, kind="quicksort")` is
    modelled after pandas' `nargsort` pipeline (reverse the values, stable
    argsort, reverse the indexer), which for the small candidate arrays at
    issue runs numpy's insertion sort and is therefore stable; the model is
    `(List.insertionSort (key ≤ key) ∘ List.reverse)` followed by `reverse`;
  * `DataFrame.head(n)` keeps pandas semantics (`n ≥ 0`: first `n` rows;
    `n < 0`: all but the last `|n|` rows);
  * fallible operations (`np.argmin` on an empty array raises) return
    `Option`.
-/
import Mathlib

namespace SFParking

/-! ### Constants (src/constants.py) -/

def FT_PER_MI : ℝ := 5280.0

def EARTH_RADIUS_MI : ℝ := 3958.7613

/-- The bounding box `SF_BBOX = (-122.514, 37.708, -122.357, 37.832)` — west, south, east, north. -/
def SF_BBOX : ℝ × ℝ × ℝ × ℝ := (-122.514, 37.708, -122.357, 37.832)

/-! ### Data model

A row of the cleaned dataset: display name, parking supply (`PRKG_SPLY`,
coerced to float by `load_df`), and the segment-center coordinates. -/

structure Record where
  street : String
  supply : ℝ
  center_lat : ℝ
  center_lon : ℝ

/-! ### Distance functions -/

/-- Degrees to radians, as `math.radians` / `np.radians` compute it. -/
noncomputable def radians (deg : ℝ) : ℝ := deg * (Real.pi / 180)

/-- The intermediate `a` of the haversine formula in
`_haversine_mi_vectorized` (src/rank.py line 22):
`sin(dphi/2)**2 + cos(lat1)*cos(lat2)*sin(dlmb/2)**2` with
`dphi = lat2 - lat1`, `dlmb = lon2 - lon1` in radians. -/
noncomputable def hav_a (lat lon lat2 lon2 : ℝ) : ℝ :=
  Real.sin ((radians lat2 - radians lat) / 2) ^ 2 +
    Real.cos (radians lat) * Real.cos (radians lat2) *
      Real.sin ((radians lon2 - radians lon) / 2) ^ 2

/-- Function `_haversine_mi_vectorized` (src/rank.py lines 7–24), pointwise:
`2.0 * EARTH_RADIUS_MI * np.arcsin(np.sqrt(a))`. -/
noncomputable def haversine_mi_vectorized (lat lon lat2 lon2 : ℝ) : ℝ :=
  2 * EARTH_RADIUS_MI * Real.arcsin (Real.sqrt (hav_a lat lon lat2 lon2))

/-- Function `haversine_mi` (src/utils.py lines 17–23); it computes
`dphi = math.radians(lat2 - lat1)` and `dlmb = math.radians(lon2 - lon1)`
before halving, otherwise the same formula. -/
noncomputable def haversine_mi (lat1 lon1 lat2 lon2 : ℝ) : ℝ :=
  2 * EARTH_RADIUS_MI * Real.arcsin (Real.sqrt (
    Real.sin (radians (lat2 - lat1) / 2) ^ 2 +
      Real.cos (radians lat1) * Real.cos (radians lat2) *
        Real.sin (radians (lon2 - lon1) / 2) ^ 2))

theorem radians_sub (a b : ℝ) : radians (a - b) = radians a - radians b := by
  unfold radians; ring

/-- Over exact reals the two haversine implementations coincide. -/
theorem haversine_mi_eq_vectorized (lat1 lon1 lat2 lon2 : ℝ) :
    haversine_mi lat1 lon1 lat2 lon2 = haversine_mi_vectorized lat1 lon1 lat2 lon2 := by
  unfold haversine_mi haversine_mi_vectorized hav_a
  rw [radians_sub, radians_sub]

/-- Distance from a query point to a record's center, as used throughout
`rank.py`. -/
noncomputable def dist (lat lon : ℝ) (r : Record) : ℝ :=
  haversine_mi_vectorized lat lon r.center_lat r.center_lon

theorem hav_a_self (lat lon : ℝ) : hav_a lat lon lat lon = 0 := by
  unfold hav_a; simp

theorem haversine_self (lat lon : ℝ) : haversine_mi_vectorized lat lon lat lon = 0 := by
  unfold haversine_mi_vectorized
  rw [hav_a_self]
  simp

/-! ### Bounds check (src/geocode.py lines 23–24) -/

/-- Predicate `in_sf_bounds(lat, lon)`:
`SF_BBOX[1] <= lat <= SF_BBOX[3] and SF_BBOX[0] <= lon <= SF_BBOX[2]`. -/
def in_sf_bounds (lat lon : ℝ) : Prop :=
  (SF_BBOX.2.1 ≤ lat ∧ lat ≤ SF_BBOX.2.2.2) ∧ (SF_BBOX.1 ≤ lon ∧ lon ≤ SF_BBOX.2.2.1)

noncomputable instance (lat lon : ℝ) : Decidable (in_sf_bounds lat lon) := by
  unfold in_sf_bounds; infer_instance

/-! ### `np.argmin` as a fold

`np.argmin` returns the first index attaining the minimum; `nearest_street`
then takes `df.iloc` of it.  `foldMinBy f b l` scans `b :: l` left to right
and replaces its best element only on a strict decrease of the key, which
is exactly the first-minimum semantics. -/

noncomputable def foldMinBy {α : Type*} (f : α → ℝ) : α → List α → α
  | b, [] => b
  | b, x :: l => if f x < f b then foldMinBy f x l else foldMinBy f b l

theorem foldMinBy_mem {α : Type*} (f : α → ℝ) :
    ∀ (l : List α) (b : α), foldMinBy f b l ∈ b :: l := by
  intro l
  induction l with
  | nil => intro b; simp [foldMinBy]
  | cons x l ih =>
    intro b
    by_cases h : f x < f b
    · simp only [foldMinBy, if_pos h]
      exact List.mem_cons_of_mem b (ih x)
    · simp only [foldMinBy, if_neg h]
      rcases List.mem_cons.1 (ih b) with h1 | h1
      · rw [h1]; exact List.mem_cons_self b (x :: l)
      · exact List.mem_cons_of_mem b (List.mem_cons_of_mem x h1)

theorem foldMinBy_le {α : Type*} (f : α → ℝ) :
    ∀ (l : List α) (b : α), ∀ y ∈ b :: l, f (foldMinBy f b l) ≤ f y := by
  intro l
  induction l with
  | nil =>
    intro b y hy
    rcases List.mem_cons.1 hy with h1 | h1
    · subst h1; simp [foldMinBy]
    · simp at h1
  | cons x l ih =>
    intro b y hy
    by_cases h : f x < f b
    · simp only [foldMinBy, if_pos h]
      rcases List.mem_cons.1 hy with h1 | h1
      · subst h1
        exact le_trans (ih x x (List.mem_cons_self x l)) (le_of_lt h)
      · exact ih x y h1
    · simp only [foldMinBy, if_neg h]
      rcases List.mem_cons.1 hy with h1 | h1
      · subst h1; exact ih y y (List.mem_cons_self y l)
      · rcases List.mem_cons.1 h1 with h2 | h2
        · subst h2
          exact le_trans (ih b b (List.mem_cons_self b l)) (not_lt.1 h)
        · exact ih b y (List.mem_cons_of_mem b h2)

/-- `foldMinBy` returns the *first* element attaining the minimum: everything
strictly before it in the scanned list has a strictly larger key. -/
theorem foldMinBy_first {α : Type*} (f : α → ℝ) :
    ∀ (l : List α) (b : α), ∃ u1 u2, b :: l = u1 ++ foldMinBy f b l :: u2 ∧
      ∀ z ∈ u1, f (foldMinBy f b l) < f z := by
  intro l
  induction l with
  | nil =>
    intro b
    refine ⟨[], [], by simp [foldMinBy], by simp⟩
  | cons x l ih =>
    intro b
    by_cases h : f x < f b
    · simp only [foldMinBy, if_pos h]
      obtain ⟨u1, u2, hdec, hstrict⟩ := ih x
      refine ⟨b :: u1, u2, by rw [List.cons_append, ← hdec], ?_⟩
      intro z hz
      rcases List.mem_cons.1 hz with h1 | h1
      · subst h1
        exact lt_of_le_of_lt (foldMinBy_le f l x x (List.mem_cons_self x l)) h
      · exact hstrict z h1
    · simp only [foldMinBy, if_neg h]
      obtain ⟨u1, u2, hdec, hstrict⟩ := ih b
      cases u1 with
      | nil =>
        simp only [List.nil_append] at hdec
        injection hdec with hG hu2
        refine ⟨[], x :: l, ?_, by simp⟩
        rw [List.nil_append, ← hG]
      | cons c u1 =>
        simp only [List.cons_append, List.cons.injEq] at hdec
        obtain ⟨hc, hl⟩ := hdec
        refine ⟨b :: x :: u1, u2, ?_, ?_⟩
        · exact congrArg (fun t => b :: x :: t) hl
        · intro z hz
          have hGb : f (foldMinBy f b l) < f b := by
            have := hstrict c (List.mem_cons_self c u1)
            rwa [← hc] at this
          rcases List.mem_cons.1 hz with h1 | h1
          · subst h1; exact hGb
          · rcases List.mem_cons.1 h1 with h2 | h2
            · subst h2; exact lt_of_lt_of_le hGb (not_lt.1 h)
            · exact hstrict z (List.mem_cons_of_mem c h2)

/-- Two "first occurrence" decompositions of the same list pick the same
element, provided each pivot satisfies a property that fails strictly
before the other pivot. -/
theorem first_pos_unique {α : Type*} {L u1 u2 v1 v2 : List α} {x y : α}
    (p q : α → Prop)
    (hu : L = u1 ++ x :: u2) (hv : L = v1 ++ y :: v2)
    (hus : ∀ z ∈ u1, ¬ p z) (hpy : p y)
    (hvs : ∀ z ∈ v1, ¬ q z) (hqx : q x) : x = y := by
  have hx_at : L.get? u1.length = some x := by
    rw [hu, List.get?_append_right (Nat.le_refl u1.length)]
    simp
  have hy_at : L.get? v1.length = some y := by
    rw [hv, List.get?_append_right (Nat.le_refl v1.length)]
    simp
  rcases lt_trichotomy u1.length v1.length with hlen | hlen | hlen
  · exfalso
    have hxv : x ∈ v1 := by
      have : L.get? u1.length = v1.get? u1.length := by
        rw [hv]; exact List.get?_append hlen
      rw [hx_at] at this
      exact List.get?_mem this.symm
    exact hvs x hxv hqx
  · rw [hlen] at hx_at
    rw [hx_at] at hy_at
    exact Option.some.inj hy_at
  · exfalso
    have hyu : y ∈ u1 := by
      have : L.get? v1.length = u1.get? v1.length := by
        rw [hu]; exact List.get?_append hlen
      rw [hy_at] at this
      exact List.get?_mem this.symm
    exact hus y hyu hpy

/-- The key uniqueness fact behind snap idempotence: if a second key `g` is
non-negative on the list, vanishes at the first `f`-minimum `x`, and every
`g`-zero of the list has the same `f`-value as `x`, then the first
`g`-minimum *is* `x`. -/
theorem foldMinBy_eq_of_zero {α : Type*} (f g : α → ℝ) (l : List α) (b : α)
    (h0 : ∀ z ∈ b :: l, 0 ≤ g z)
    (hx0 : g (foldMinBy f b l) = 0)
    (hzd : ∀ z ∈ b :: l, g z = 0 → f z = f (foldMinBy f b l)) :
    foldMinBy g b l = foldMinBy f b l := by
  have hymem : foldMinBy g b l ∈ b :: l := foldMinBy_mem g l b
  have hxmem : foldMinBy f b l ∈ b :: l := foldMinBy_mem f l b
  have hgy0 : g (foldMinBy g b l) = 0 :=
    le_antisymm (hx0 ▸ foldMinBy_le g l b (foldMinBy f b l) hxmem) (h0 _ hymem)
  have hfy : f (foldMinBy g b l) = f (foldMinBy f b l) := hzd _ hymem hgy0
  obtain ⟨u1, u2, hu, hus⟩ := foldMinBy_first f l b
  obtain ⟨v1, v2, hv, hvs⟩ := foldMinBy_first g l b
  refine (first_pos_unique (fun z => f z ≤ f (foldMinBy f b l))
    (fun z => g z ≤ g (foldMinBy g b l)) hu hv ?_ (le_of_eq hfy) ?_ ?_).symm
  · intro z hz
    exact not_le.2 (hus z hz)
  · intro z hz
    exact not_le.2 (hvs z hz)
  · exact le_of_eq (hx0.trans hgy0.symm)

/-! ### pandas / numpy ordering primitives -/

/-- Model of `np.argsort(key, kind="quicksort")` followed by `df.iloc[...]`.  For the
array sizes this program sorts, numpy's introsort runs its insertion-sort
small-array case, which keeps equal keys in input order; the model is the
stable ascending insertion sort. -/
noncomputable def sort_by_asc {α : Type*} (key : α → ℝ) (l : List α) : List α :=
  List.insertionSort (fun a b => key a ≤ key b) l

/-- Model of `DataFrame.sort_values(col, ascending=False, kind="quicksort")`.
pandas' `nargsort` reverses the rows, argsorts ascending, and reverses the
resulting indexer, so with a stable argsort equal keys keep their original
order while the keys sort descending. -/
noncomputable def sort_values_desc {α : Type*} (key : α → ℝ) (l : List α) : List α :=
  (sort_by_asc key l.reverse).reverse

/-- Model of `DataFrame.head(n)`: for `n ≥ 0` the first `n` rows, for `n < 0` all
rows but the last `|n|` (pandas slice semantics `df[:n]`). -/
def dfHead {α : Type*} (n : ℤ) (l : List α) : List α :=
  if 0 ≤ n then l.take n.toNat else l.take (l.length - (-n).toNat)

theorem length_sort_by_asc {α : Type*} (key : α → ℝ) (l : List α) :
    (sort_by_asc key l).length = l.length :=
  List.length_insertionSort _ l

theorem length_sort_values_desc {α : Type*} (key : α → ℝ) (l : List α) :
    (sort_values_desc key l).length = l.length := by
  unfold sort_values_desc
  rw [List.length_reverse, length_sort_by_asc, List.length_reverse]

theorem mem_sort_by_asc {α : Type*} (key : α → ℝ) (l : List α) (x : α) :
    x ∈ sort_by_asc key l ↔ x ∈ l :=
  (List.perm_insertionSort _ l).mem_iff

theorem mem_sort_values_desc {α : Type*} (key : α → ℝ) (l : List α) (x : α) :
    x ∈ sort_values_desc key l ↔ x ∈ l := by
  unfold sort_values_desc
  rw [List.mem_reverse, mem_sort_by_asc, List.mem_reverse]

theorem sorted_desc_sort_values_desc {α : Type*} (key : α → ℝ) (l : List α) :
    List.Sorted (fun a b => key b ≤ key a) (sort_values_desc key l) := by
  unfold sort_values_desc sort_by_asc
  have hs := @List.sorted_insertionSort α (fun a b => key a ≤ key b) _
    ⟨fun a b => le_total (key a) (key b)⟩
    ⟨fun a b c hab hbc => le_trans hab hbc⟩ l.reverse
  unfold List.Sorted at hs ⊢
  rw [List.pairwise_reverse]
  exact hs

/-! ### Candidate retrieval (src/rank.py `_query_candidates`, lines 26–64)

Only the vectorized branch (`kdt is None`) is repository code; the KDTree
branch delegates to sklearn and is modelled separately below from the
spec's §4.2 contract.  The rows are carried together with their positional
record id (`List.enum`), mirroring `df.iloc`. -/

noncomputable def query_candidates (df : List Record) (lat lon : ℝ)
    (radius_mi : ℝ) (fallback_k : ℕ) : List (ℕ × Record) :=
  let idf := df.enum
  let cand := idf.filter (fun ir => decide (dist lat lon ir.2 ≤ radius_mi))
  if cand.isEmpty then
    (sort_by_asc (fun ir => dist lat lon ir.2) idf).take (min fallback_k df.length)
  else cand

/-! ### Scoring and ranking (src/rank.py `rank_candidates`, lines 66–90) -/

/-- One output row of `rank_candidates`: the candidate's columns plus
`__dist_mi`, `__dist_ft` and `__score`. -/
structure Scored where
  record_id : ℕ
  street : String
  supply : ℝ
  center_lat : ℝ
  center_lon : ℝ
  dist_mi : ℝ
  dist_ft : ℝ
  score : ℝ

/-- The scoring formula `score = PRKG_SPLY / (1 + alpha * dist_mi ** beta)`; the float power is
real exponentiation `Real.rpow`. -/
noncomputable def score_of (alpha beta supply d : ℝ) : ℝ :=
  supply / (1 + alpha * d ^ beta)

noncomputable def mk_scored (lat lon alpha beta : ℝ) (ir : ℕ × Record) : Scored :=
  { record_id := ir.1
    street := ir.2.street
    supply := ir.2.supply
    center_lat := ir.2.center_lat
    center_lon := ir.2.center_lon
    dist_mi := dist lat lon ir.2
    dist_ft := dist lat lon ir.2 * FT_PER_MI
    score := score_of alpha beta ir.2.supply (dist lat lon ir.2) }

/-- Function `rank_candidates(df, kdt=None, coords_rad=None, lat, lon, max_mi, alpha,
beta, top_n)`:
candidates within `max_mi` (else nearest `max(300, top_n*50)`), distance,
score, `sort_values("__score", ascending=False)`, `head(int(top_n))`. -/
noncomputable def rank_candidates (df : List Record) (lat lon : ℝ)
    (max_mi alpha beta : ℝ) (top_n : ℤ) : List Scored :=
  let cand := query_candidates df lat lon max_mi (max 300 (top_n * 50)).toNat
  let scored := cand.map (mk_scored lat lon alpha beta)
  dfHead top_n (sort_values_desc (fun s => s.score) scored)

/-! ### Nearest record (src/rank.py `nearest_street`, lines 92–109)

The vectorized branch computes all distances and takes `np.argmin`;
`np.argmin` of an empty array raises `ValueError`, which the model returns
as `none`. -/

noncomputable def nearest_street (df : List Record) (lat lon : ℝ) :
    Option ((ℕ × Record) × ℝ) :=
  match df.enum with
  | [] => none
  | b :: rest =>
    let best := foldMinBy (fun ir => dist lat lon ir.2) b rest
    some (best, dist lat lon best.2)

/-! ### Origin snapping (src/rank.py `snap_origin_to_dataset`, lines 111–126)

Both branches of the source call `nearest_street` before producing a
result, so on an empty dataset every call fails; the model hoists the
single `nearest_street` call. -/

noncomputable def snap_origin_to_dataset (df : List Record) (lat lon : ℝ)
    (max_snap_mi : ℝ) : Option (ℝ × ℝ) :=
  (nearest_street df lat lon).map (fun bd =>
    if ¬ in_sf_bounds lat lon then (bd.1.2.center_lat, bd.1.2.center_lon)
    else if bd.2 > max_snap_mi then (bd.1.2.center_lat, bd.1.2.center_lon)
    else (lat, lon))

/-! ### Range of the haversine intermediate and the zero-distance relation -/

/-- The haversine intermediate at the radian level; `hav_a` is this applied
to `radians` of its arguments. -/
noncomputable def hav_a_rad (p1 l1 p2 l2 : ℝ) : ℝ :=
  Real.sin ((p2 - p1) / 2) ^ 2 + Real.cos p1 * Real.cos p2 * Real.sin ((l2 - l1) / 2) ^ 2

theorem hav_a_def (lat lon lat2 lon2 : ℝ) :
    hav_a lat lon lat2 lon2 = hav_a_rad (radians lat) (radians lon) (radians lat2) (radians lon2) :=
  rfl

theorem hav_a_rad_nonneg (p1 l1 p2 l2 : ℝ) (hcc : 0 ≤ Real.cos p1 * Real.cos p2) :
    0 ≤ hav_a_rad p1 l1 p2 l2 := by
  unfold hav_a_rad
  have h1 : (0:ℝ) ≤ Real.sin ((p2 - p1) / 2) ^ 2 := sq_nonneg _
  have h2 : (0:ℝ) ≤ Real.sin ((l2 - l1) / 2) ^ 2 := sq_nonneg _
  nlinarith

theorem hav_a_rad_le_one (p1 l1 p2 l2 : ℝ) (hcc : 0 ≤ Real.cos p1 * Real.cos p2) :
    hav_a_rad p1 l1 p2 l2 ≤ 1 := by
  unfold hav_a_rad
  have hsin2 : Real.sin ((l2 - l1) / 2) ^ 2 ≤ 1 := Real.sin_sq_le_one _
  have hs0 : (0:ℝ) ≤ Real.sin ((l2 - l1) / 2) ^ 2 := sq_nonneg _
  have hbound := mul_le_mul_of_nonneg_left hsin2 hcc
  have hhalf : Real.sin ((p2 - p1) / 2) ^ 2 = 1 / 2 - Real.cos (p2 - p1) / 2 := by
    have h1 := Real.sin_sq ((p2 - p1) / 2)
    have h2 := Real.cos_sq ((p2 - p1) / 2)
    have h3 : 2 * ((p2 - p1) / 2) = p2 - p1 := by ring
    rw [h2, h3] at h1
    linarith
  have hsub := Real.cos_sub p2 p1
  have hadd := Real.cos_add p1 p2
  have hle := Real.cos_le_one (p1 + p2)
  nlinarith

/-- Cosine of a latitude given in degrees within `[-90, 90]` is
non-negative. -/
theorem cos_radians_nonneg (lat : ℝ) (h1 : -90 ≤ lat) (h2 : lat ≤ 90) :
    0 ≤ Real.cos (radians lat) := by
  have hpi : (0:ℝ) ≤ Real.pi / 180 := by positivity
  apply Real.cos_nonneg_of_mem_Icc
  constructor
  · have := mul_le_mul_of_nonneg_right h1 hpi
    unfold radians
    nlinarith [Real.pi_pos]
  · have := mul_le_mul_of_nonneg_right h2 hpi
    unfold radians
    nlinarith [Real.pi_pos]

theorem haversine_nonneg (lat lon lat2 lon2 : ℝ) :
    0 ≤ haversine_mi_vectorized lat lon lat2 lon2 := by
  unfold haversine_mi_vectorized
  have h1 : 0 ≤ Real.arcsin (Real.sqrt (hav_a lat lon lat2 lon2)) :=
    Real.arcsin_nonneg.2 (Real.sqrt_nonneg _)
  have hR : (0:ℝ) ≤ EARTH_RADIUS_MI := by norm_num [EARTH_RADIUS_MI]
  nlinarith

theorem sin_sq_add_int_mul_pi (x : ℝ) (n : ℤ) :
    Real.sin (x + n * Real.pi) ^ 2 = Real.sin x ^ 2 := by
  rw [Real.sin_add_int_mul_pi]
  rcases Int.even_or_odd n with he | ho
  · rw [he.neg_one_zpow]; ring
  · rw [ho.neg_one_zpow]; ring

/-- Two points at haversine-intermediate zero are the same point of the
sphere: they are indistinguishable by `hav_a_rad` from anywhere. -/
theorem hav_a_rad_eq_of_zero (p1 l1 p2 l2 : ℝ) (hcc : 0 ≤ Real.cos p1 * Real.cos p2)
    (h : hav_a_rad p1 l1 p2 l2 = 0) :
    ∀ q ql, hav_a_rad q ql p2 l2 = hav_a_rad q ql p1 l1 := by
  intro q ql
  have ht1 : (0:ℝ) ≤ Real.sin ((p2 - p1) / 2) ^ 2 := sq_nonneg _
  have ht2 : (0:ℝ) ≤ Real.cos p1 * Real.cos p2 * Real.sin ((l2 - l1) / 2) ^ 2 :=
    mul_nonneg hcc (sq_nonneg _)
  have hA := h
  unfold hav_a_rad at hA
  have hz1 : Real.sin ((p2 - p1) / 2) ^ 2 = 0 := by linarith
  have hz2 : Real.cos p1 * Real.cos p2 * Real.sin ((l2 - l1) / 2) ^ 2 = 0 := by linarith
  have hs1 : Real.sin ((p2 - p1) / 2) = 0 := by
    exact pow_eq_zero_iff (two_ne_zero) |>.1 hz1
  obtain ⟨k, hk⟩ := Real.sin_eq_zero_iff.1 hs1
  have hp2 : p2 = p1 + k * (2 * Real.pi) := by linarith
  subst hp2
  have hcos2 : Real.cos (p1 + k * (2 * Real.pi)) = Real.cos p1 :=
    Real.cos_add_int_mul_two_pi p1 k
  have hterm1 : Real.sin ((p1 + k * (2 * Real.pi) - q) / 2) ^ 2 =
      Real.sin ((p1 - q) / 2) ^ 2 := by
    have harg : (p1 + k * (2 * Real.pi) - q) / 2 = (p1 - q) / 2 + k * Real.pi := by
      ring
    rw [harg, sin_sq_add_int_mul_pi]
  rw [hcos2] at hz2
  have hsplit : Real.cos p1 = 0 ∨ Real.sin ((l2 - l1) / 2) = 0 := by
    have : (Real.cos p1 * Real.sin ((l2 - l1) / 2)) ^ 2 = 0 := by
      have : Real.cos p1 * Real.cos p1 * Real.sin ((l2 - l1) / 2) ^ 2 = 0 := hz2
      nlinarith [this]
    have hps := pow_eq_zero_iff (two_ne_zero) |>.1 this
    rcases mul_eq_zero.1 hps with hc | hs
    · exact Or.inl hc
    · exact Or.inr hs
  unfold hav_a_rad
  rw [hcos2, hterm1]
  rcases hsplit with hc | hs
  · rw [hc]; ring
  · obtain ⟨n, hn⟩ := Real.sin_eq_zero_iff.1 hs
    have hl2 : l2 = l1 + n * (2 * Real.pi) := by linarith
    subst hl2
    have hterm2 : Real.sin ((l1 + n * (2 * Real.pi) - ql) / 2) ^ 2 =
        Real.sin ((l1 - ql) / 2) ^ 2 := by
      have harg : (l1 + n * (2 * Real.pi) - ql) / 2 = (l1 - ql) / 2 + n * Real.pi := by
        ring
      rw [harg, sin_sq_add_int_mul_pi]
    rw [hterm2]

/-- Degree-level consequence: if the (source) haversine distance between two
valid-latitude points vanishes, the two points have equal haversine
distance to every query point. -/
theorem haversine_eq_of_zero (xlat xlon ylat ylon : ℝ)
    (hcc : 0 ≤ Real.cos (radians xlat) * Real.cos (radians ylat))
    (h : haversine_mi_vectorized xlat xlon ylat ylon = 0) :
    ∀ qlat qlon,
      haversine_mi_vectorized qlat qlon ylat ylon =
        haversine_mi_vectorized qlat qlon xlat xlon := by
  intro qlat qlon
  have hA0 : hav_a xlat xlon ylat ylon = 0 := by
    unfold haversine_mi_vectorized at h
    have hR2 : (2:ℝ) * EARTH_RADIUS_MI ≠ 0 := by norm_num [EARTH_RADIUS_MI]
    have harc : Real.arcsin (Real.sqrt (hav_a xlat xlon ylat ylon)) = 0 := by
      rcases mul_eq_zero.1 h with h1 | h1
      · exact absurd h1 hR2
      · exact h1
    have hsqrt : Real.sqrt (hav_a xlat xlon ylat ylon) = 0 := by
      by_contra hne
      have hpos : 0 < Real.sqrt (hav_a xlat xlon ylat ylon) :=
        lt_of_le_of_ne (Real.sqrt_nonneg _) (Ne.symm hne)
      have := Real.arcsin_pos.2 hpos
      rw [harc] at this
      exact lt_irrefl 0 this
    have hle : hav_a xlat xlon ylat ylon ≤ 0 := Real.sqrt_eq_zero'.1 hsqrt
    have hge : 0 ≤ hav_a xlat xlon ylat ylon := by
      rw [hav_a_def]
      exact hav_a_rad_nonneg _ _ _ _ hcc
    linarith
  have := hav_a_rad_eq_of_zero (radians xlat) (radians xlon) (radians ylat) (radians ylon)
    hcc (by rw [← hav_a_def]; exact hA0) (radians qlat) (radians qlon)
  unfold haversine_mi_vectorized
  rw [hav_a_def, hav_a_def, this]

/-! ### Snap idempotence machinery -/

theorem snd_mem_enumFrom {α : Type*} :
    ∀ {l : List α} {n : ℕ} {p : ℕ × α}, p ∈ List.enumFrom n l → p.2 ∈ l := by
  intro l
  induction l with
  | nil => intro n p h; simp [List.enumFrom] at h
  | cons x xs ih =>
    intro n p h
    rcases List.mem_cons.1 h with h1 | h1
    · subst h1; exact List.mem_cons_self x xs
    · exact List.mem_cons_of_mem x (ih h1)

theorem nearest_street_cons (r : Record) (t : List Record) (lat lon : ℝ) :
    nearest_street (r :: t) lat lon =
      some (foldMinBy (fun ir => dist lat lon ir.2) (0, r) (List.enumFrom 1 t),
        dist lat lon (foldMinBy (fun ir => dist lat lon ir.2) (0, r) (List.enumFrom 1 t)).2) :=
  rfl

/-- Querying `nearest_street` *from* the winning record's own center finds
that same record again, at distance `0`. -/
theorem nearest_street_recenter (df : List Record) (lat lon : ℝ)
    (hval : ∀ r ∈ df, -90 ≤ r.center_lat ∧ r.center_lat ≤ 90)
    {best : ℕ × Record} {d : ℝ}
    (h : nearest_street df lat lon = some (best, d)) :
    nearest_street df best.2.center_lat best.2.center_lon = some (best, 0) := by
  cases df with
  | nil => simp [nearest_street, List.enum, List.enumFrom] at h
  | cons r t =>
    rw [nearest_street_cons] at h
    have hbest : best = foldMinBy (fun ir => dist lat lon ir.2) (0, r) (List.enumFrom 1 t) := by
      have := (Option.some.inj h)
      exact (congrArg Prod.fst this).symm
    have hmem2 : ∀ z : ℕ × Record, z ∈ (0, r) :: List.enumFrom 1 t → z.2 ∈ r :: t := by
      intro z hz
      rcases List.mem_cons.1 hz with h1 | h1
      · subst h1; exact List.mem_cons_self r t
      · exact List.mem_cons_of_mem r (snd_mem_enumFrom h1)
    have hbmem : best.2 ∈ r :: t := by
      rw [hbest]
      exact hmem2 _ (foldMinBy_mem _ _ _)
    have hfold : foldMinBy (fun ir => dist best.2.center_lat best.2.center_lon ir.2)
        (0, r) (List.enumFrom 1 t) =
        foldMinBy (fun ir => dist lat lon ir.2) (0, r) (List.enumFrom 1 t) := by
      apply foldMinBy_eq_of_zero
      · intro z hz
        exact haversine_nonneg _ _ _ _
      · rw [← hbest]
        unfold dist
        exact haversine_self _ _
      · intro z hz hz0
        rw [← hbest]
        have hccz : 0 ≤ Real.cos (radians best.2.center_lat) *
            Real.cos (radians z.2.center_lat) := by
          have h1 := hval best.2 hbmem
          have h2 := hval z.2 (hmem2 z hz)
          exact mul_nonneg (cos_radians_nonneg _ h1.1 h1.2) (cos_radians_nonneg _ h2.1 h2.2)
        have := haversine_eq_of_zero best.2.center_lat best.2.center_lon
          z.2.center_lat z.2.center_lon hccz hz0 lat lon
        unfold dist
        exact this
    rw [nearest_street_cons, hfold, ← hbest]
    have hd0 : dist lat lon best.2 = dist lat lon best.2 := rfl
    have : dist best.2.center_lat best.2.center_lon best.2 = 0 := haversine_self _ _
    rw [hbest] at this ⊢
    rw [this]

/-- Snapping from a record's own center is a fixed point of
`snap_origin_to_dataset`. -/
theorem snap_center_fixed (df : List Record) (lat lon max_snap_mi : ℝ)
    (hval : ∀ r ∈ df, -90 ≤ r.center_lat ∧ r.center_lat ≤ 90)
    {best : ℕ × Record} {d : ℝ}
    (h : nearest_street df lat lon = some (best, d)) :
    snap_origin_to_dataset df best.2.center_lat best.2.center_lon max_snap_mi =
      some (best.2.center_lat, best.2.center_lon) := by
  have h2 := nearest_street_recenter df lat lon hval h
  unfold snap_origin_to_dataset
  rw [h2, Option.map_some']
  by_cases hb : in_sf_bounds best.2.center_lat best.2.center_lon
  · rw [if_neg (not_not_intro hb)]
    by_cases hm : ((best, (0:ℝ)).2 > max_snap_mi)
    · rw [if_pos hm]
    · rw [if_neg hm]
  · rw [if_pos hb]

/-- C7: For every non-empty dataset (whose record latitudes are valid
degrees, per the data model), every query point, and every max snap
distance, applying `snap_origin_to_dataset` twice in succession yields the
same point as applying it once. -/
theorem snap_origin_idempotent (df : List Record) (lat lon max_snap_mi : ℝ)
    (hne : df ≠ [])
    (hval : ∀ r ∈ df, -90 ≤ r.center_lat ∧ r.center_lat ≤ 90) :
    (snap_origin_to_dataset df lat lon max_snap_mi).bind
      (fun p => snap_origin_to_dataset df p.1 p.2 max_snap_mi) =
    snap_origin_to_dataset df lat lon max_snap_mi := by
  obtain ⟨r, t, rfl⟩ : ∃ r t, df = r :: t := by
    cases df with
    | nil => exact absurd rfl hne
    | cons r t => exact ⟨r, t, rfl⟩
  have hns := nearest_street_cons r t lat lon
  by_cases hb : in_sf_bounds lat lon
  · by_cases hm : dist lat lon
        (foldMinBy (fun ir => dist lat lon ir.2) (0, r) (List.enumFrom 1 t)).2 > max_snap_mi
    · have hsnap : snap_origin_to_dataset (r :: t) lat lon max_snap_mi =
          some ((foldMinBy (fun ir => dist lat lon ir.2) (0, r)
              (List.enumFrom 1 t)).2.center_lat,
            (foldMinBy (fun ir => dist lat lon ir.2) (0, r)
              (List.enumFrom 1 t)).2.center_lon) := by
        unfold snap_origin_to_dataset
        rw [hns]
        simp only [Option.map_some']
        rw [if_neg (not_not_intro hb), if_pos hm]
      rw [hsnap, Option.some_bind]
      exact snap_center_fixed (r :: t) lat lon max_snap_mi hval hns
    · have hsnap : snap_origin_to_dataset (r :: t) lat lon max_snap_mi =
          some (lat, lon) := by
        unfold snap_origin_to_dataset
        rw [hns]
        simp only [Option.map_some']
        rw [if_neg (not_not_intro hb), if_neg hm]
      rw [hsnap, Option.some_bind]
      exact hsnap
  · have hsnap : snap_origin_to_dataset (r :: t) lat lon max_snap_mi =
        some ((foldMinBy (fun ir => dist lat lon ir.2) (0, r)
            (List.enumFrom 1 t)).2.center_lat,
          (foldMinBy (fun ir => dist lat lon ir.2) (0, r)
            (List.enumFrom 1 t)).2.center_lon) := by
      unfold snap_origin_to_dataset
      rw [hns]
      simp only [Option.map_some']
      rw [if_pos hb]
    rw [hsnap, Option.some_bind]
    exact snap_center_fixed (r :: t) lat lon max_snap_mi hval hns

/-- Witness for C7 at a concrete one-record dataset and query point. -/
theorem snap_origin_idempotent_witness :
    (snap_origin_to_dataset [⟨"A", 1, 0, 0⟩] 1 2 2).bind
      (fun p => snap_origin_to_dataset [⟨"A", 1, 0, 0⟩] p.1 p.2 2) =
    snap_origin_to_dataset [⟨"A", 1, 0, 0⟩] 1 2 2 := by
  apply snap_origin_idempotent
  · exact List.cons_ne_nil _ _
  · intro r hr
    rcases List.mem_singleton.1 hr with rfl
    norm_num

/-! ### Empty-dataset behavior -/

theorem query_candidates_nil (lat lon radius : ℝ) (k : ℕ) :
    query_candidates [] lat lon radius k = [] := by
  unfold query_candidates
  simp [List.enum, sort_by_asc]

/-- C5: On a zero-record dataset the nearest-record operation fails (the
source's `np.argmin` on an empty array raises, modelled as `none`) while
`rank_candidates` returns the empty sequence without failing. -/
theorem nearest_fails_rank_empty_on_empty_dataset
    (lat lon max_mi alpha beta : ℝ) (top_n : ℤ) :
    nearest_street [] lat lon = none ∧
      rank_candidates [] lat lon max_mi alpha beta top_n = [] := by
  constructor
  · rfl
  · unfold rank_candidates
    rw [query_candidates_nil]
    simp [sort_values_desc, sort_by_asc, dfHead]

/-- C8 counterexample: on the empty dataset `snap_origin_to_dataset` does
*not* return the query point unchanged — it fails (the nearest-record
lookup raises), refuting the claimed no-op. -/
theorem snap_origin_empty_cex :
    snap_origin_to_dataset [] 37.78 (-122.41) 2 ≠ some (37.78, -122.41) := by
  unfold snap_origin_to_dataset
  rw [show nearest_street [] 37.78 (-122.41) = none from rfl]
  simp

/-- C8 (amended): on the empty dataset `snap_origin_to_dataset` fails for
every query point (both branches of the source call `nearest_street`,
whose `np.argmin` raises `ValueError` on an empty array). -/
theorem snap_origin_empty_fails (lat lon max_snap_mi : ℝ) :
    snap_origin_to_dataset [] lat lon max_snap_mi = none := by
  unfold snap_origin_to_dataset
  rw [show nearest_street [] lat lon = none from rfl]
  rfl

/-! ### `top_n ≤ 0` -/

/-- C6 counterexample: with `top_n = 0` (and a non-empty dataset)
`rank_candidates` does not fail with any error — it returns the empty
DataFrame, because `head(0)` is taken without validating `top_n`. -/
theorem rank_candidates_top_n_zero_cex :
    rank_candidates [⟨"A", 5, 0, 0⟩] 0 0 1 1 1 0 = [] := by
  unfold rank_candidates dfHead
  rw [if_pos (le_refl (0:ℤ))]
  simp

/-- C6 (amended): `rank_candidates` performs no validation of `top_n`.
For `top_n ≤ 0` it raises nothing and returns `head(top_n)` of the scored
frame: the empty sequence for `top_n = 0`, and all but the last `|top_n|`
scored candidates for `top_n < 0` (pandas negative-`head` semantics). -/
theorem rank_candidates_nonpos_top_n (df : List Record) (lat lon max_mi alpha beta : ℝ)
    (top_n : ℤ) (ht : top_n ≤ 0) :
    (rank_candidates df lat lon max_mi alpha beta top_n).length =
      if top_n = 0 then 0 else
        (query_candidates df lat lon max_mi (max 300 (top_n * 50)).toNat).length -
          min ((query_candidates df lat lon max_mi (max 300 (top_n * 50)).toNat).length)
            (-top_n).toNat := by
  unfold rank_candidates dfHead
  by_cases h0 : top_n = 0
  · subst h0
    rw [if_pos (le_refl (0:ℤ))]
    simp
  · have hlt : top_n < 0 := lt_of_le_of_ne ht h0
    rw [if_neg (not_le.2 hlt), if_neg h0]
    rw [List.length_take, length_sort_values_desc, List.length_map]
    omega

/-- Witness for C6's amended theorem at `top_n = -1` on the empty dataset. -/
theorem rank_candidates_nonpos_top_n_witness :
    (rank_candidates [] 0 0 1 1 1 (-1)).length =
      if (-1 : ℤ) = 0 then 0 else
        (query_candidates [] 0 0 1 (max 300 ((-1) * 50)).toNat).length -
          min ((query_candidates [] 0 0 1 (max 300 ((-1) * 50)).toNat).length)
            (-(-1 : ℤ)).toNat :=
  rank_candidates_nonpos_top_n [] 0 0 1 1 1 (-1) (by norm_num)

/-! ### Fallback count -/

/-- C4: on a non-empty dataset in which no record lies within the radius,
the candidate retriever falls back to the `k` nearest records and returns
exactly `min(fallback_k, N)` of them, with `fallback_k = max(300, top_n*50)`
as chosen by `rank_candidates`. -/
theorem query_candidates_fallback_count (df : List Record) (lat lon radius : ℝ)
    (top_n : ℤ) (hne : df ≠ [])
    (hfar : ∀ r ∈ df, radius < dist lat lon r) :
    (query_candidates df lat lon radius (max 300 (top_n * 50)).toNat).length =
      min (max 300 (top_n * 50)).toNat df.length := by
  unfold query_candidates
  have hfilter : df.enum.filter (fun ir => decide (dist lat lon ir.2 ≤ radius)) = [] := by
    apply List.filter_eq_nil.2
    intro a ha
    simp only [decide_eq_true_eq]
    exact not_le.2 (hfar a.2 (List.snd_mem_of_mem_enum ha))
  dsimp only
  rw [hfilter]
  simp only [List.isEmpty_nil, if_pos]
  rw [List.length_take, length_sort_by_asc, List.enum_length]
  omega

/-- Witness for C4: one antipodal record, radius 1 mile, `top_n = 1`. -/
theorem query_candidates_fallback_count_witness :
    (query_candidates [⟨"B", 2, 0, 180⟩] 0 0 1 (max 300 ((1:ℤ) * 50)).toNat).length =
      min (max 300 ((1:ℤ) * 50)).toNat [(⟨"B", 2, 0, 180⟩ : Record)].length := by
  apply query_candidates_fallback_count [⟨"B", 2, 0, 180⟩] 0 0 1 1 (List.cons_ne_nil _ _)
  intro r hr
  rcases List.mem_singleton.1 hr with rfl
  have hd : dist 0 0 (⟨"B", 2, 0, 180⟩ : Record) = EARTH_RADIUS_MI * Real.pi := by
    show haversine_mi_vectorized 0 0 0 180 = _
    have h0 : radians 0 = 0 := by unfold radians; ring
    have h180 : radians 180 = Real.pi := by
      unfold radians
      field_simp
    have ha : hav_a 0 0 0 180 = 1 := by
      unfold hav_a
      rw [h0, h180]
      norm_num
    unfold haversine_mi_vectorized
    rw [ha, Real.sqrt_one, Real.arcsin_one]
    ring
  rw [hd]
  unfold EARTH_RADIUS_MI
  nlinarith [Real.pi_gt_three]

/-! ### Scoring formula -/

/-- Concrete evaluation: one record located exactly at the query point,
radius 1, `top_n = 1`. -/
theorem rank_one_eval (sup alpha beta : ℝ) :
    rank_candidates [⟨"A", sup, 0, 0⟩] 0 0 1 alpha beta 1 =
      [mk_scored 0 0 alpha beta (0, ⟨"A", sup, 0, 0⟩)] := by
  have hd : dist 0 0 (⟨"A", sup, 0, 0⟩ : Record) = 0 := haversine_self 0 0
  have hcond : (decide ((0:ℝ) ≤ 1)) = true := decide_eq_true (by norm_num)
  unfold rank_candidates query_candidates
  dsimp only
  simp [List.enum, List.enumFrom, hd, hcond, sort_values_desc, sort_by_asc, dfHead]

/-- C3 (amended): every output row of `rank_candidates` carries
`score = supply / (1 + alpha * dist^beta)`; a zero-supply candidate scores
`0` for every `alpha` and `beta`; and a candidate at distance `0` scores
exactly its supply for every `alpha` and every `beta > 0` (at `beta = 0`
the exponential is `0^0 = 1` and the score is `supply / (1 + alpha)`
instead). -/
theorem rank_candidates_score_formula (df : List Record) (lat lon max_mi alpha beta : ℝ)
    (top_n : ℤ) (c : Scored)
    (hc : c ∈ rank_candidates df lat lon max_mi alpha beta top_n) :
    c.score = c.supply / (1 + alpha * c.dist_mi ^ beta) ∧
      (c.supply = 0 → c.score = 0) ∧
      (0 < beta → c.dist_mi = 0 → c.score = c.supply) := by
  have h1 : c ∈ sort_values_desc (fun s => s.score)
      ((query_candidates df lat lon max_mi (max 300 (top_n * 50)).toNat).map
        (mk_scored lat lon alpha beta)) := by
    unfold rank_candidates at hc
    dsimp only at hc
    unfold dfHead at hc
    by_cases h : (0:ℤ) ≤ top_n
    · rw [if_pos h] at hc
      exact List.take_subset _ _ hc
    · rw [if_neg h] at hc
      exact List.take_subset _ _ hc
  have h2 := (mem_sort_values_desc _ _ _).1 h1
  obtain ⟨ir, hirmem, hir⟩ := List.mem_map.1 h2
  subst hir
  refine ⟨rfl, ?_, ?_⟩
  · intro hsup
    simp only [mk_scored] at hsup ⊢
    unfold score_of
    rw [hsup, zero_div]
  · intro hb hd0
    simp only [mk_scored] at hd0 ⊢
    unfold score_of
    rw [hd0, Real.zero_rpow (ne_of_gt hb), mul_zero, add_zero, div_one]

/-- Witness for C3's amended theorem on a concrete one-record input. -/
theorem rank_candidates_score_formula_witness :
    (mk_scored 0 0 1 1 (0, ⟨"A", 10, 0, 0⟩)).score =
        (mk_scored 0 0 1 1 (0, ⟨"A", 10, 0, 0⟩)).supply /
          (1 + 1 * (mk_scored 0 0 1 1 (0, ⟨"A", 10, 0, 0⟩)).dist_mi ^ (1:ℝ)) ∧
      ((mk_scored 0 0 1 1 (0, ⟨"A", 10, 0, 0⟩)).supply = 0 →
        (mk_scored 0 0 1 1 (0, ⟨"A", 10, 0, 0⟩)).score = 0) ∧
      ((0:ℝ) < 1 → (mk_scored 0 0 1 1 (0, ⟨"A", 10, 0, 0⟩)).dist_mi = 0 →
        (mk_scored 0 0 1 1 (0, ⟨"A", 10, 0, 0⟩)).score =
          (mk_scored 0 0 1 1 (0, ⟨"A", 10, 0, 0⟩)).supply) :=
  rank_candidates_score_formula [⟨"A", 10, 0, 0⟩] 0 0 1 1 1 1 _
    (by rw [rank_one_eval]; exact List.mem_singleton_self _)

/-- C3 counterexample: at `beta = 0` a candidate at distance `0` scores
`supply / (1 + alpha)` — here `10 / 2 = 5`, not its supply `10` — because
the source computes `d ** beta` with `0 ** 0 = 1` and no special-casing. -/
theorem rank_candidates_beta_zero_cex :
    ((rank_candidates [⟨"A", 10, 0, 0⟩] 0 0 1 1 0 1).map
      (fun c => (c.supply, c.dist_mi, c.score))) = [(10, 0, 5)] ∧ (5:ℝ) ≠ 10 := by
  constructor
  · rw [rank_one_eval]
    have hd : dist 0 0 (⟨"A", 10, 0, 0⟩ : Record) = 0 := haversine_self 0 0
    simp [mk_scored, score_of, hd, Real.rpow_zero]
    norm_num
  · norm_num

/-! ### Output order -/

/-- C1 (amended): the sequence returned by `rank_candidates` is sorted in
descending order of score.  The sort key is `__score` alone: no
ascending-distance or ascending-id tie-break is applied (equal-score rows
keep the sort's incidental order). -/
theorem rank_candidates_sorted_desc (df : List Record) (lat lon max_mi alpha beta : ℝ)
    (top_n : ℤ) :
    List.Sorted (fun x y : Scored => y.score ≤ x.score)
      (rank_candidates df lat lon max_mi alpha beta top_n) := by
  unfold rank_candidates dfHead
  dsimp only
  have hs := sorted_desc_sort_values_desc (fun s : Scored => s.score)
    ((query_candidates df lat lon max_mi (max 300 (top_n * 50)).toNat).map
      (mk_scored lat lon alpha beta))
  unfold List.Sorted at hs ⊢
  by_cases h : (0:ℤ) ≤ top_n
  · rw [if_pos h]
    exact List.Pairwise.sublist (List.take_sublist _ _) hs
  · rw [if_neg h]
    exact List.Pairwise.sublist (List.take_sublist _ _) hs

theorem dist_antipode_eval (s : String) (sup : ℝ) :
    dist 0 0 (⟨s, sup, 0, 180⟩ : Record) = EARTH_RADIUS_MI * Real.pi := by
  show haversine_mi_vectorized 0 0 0 180 = _
  have h0 : radians 0 = 0 := by unfold radians; ring
  have h180 : radians 180 = Real.pi := by
    unfold radians
    field_simp
  have ha : hav_a 0 0 0 180 = 1 := by
    unfold hav_a
    rw [h0, h180]
    norm_num
  unfold haversine_mi_vectorized
  rw [ha, Real.sqrt_one, Real.arcsin_one]
  ring

/-- C1 counterexample: two zero-supply candidates tie at score `0`; the
source sorts by score alone, so the farther candidate (listed first, an
antipodal point at distance `R·π` miles) stays ahead of the candidate at
distance `0`, refuting the claimed ascending-distance tie-break. -/
theorem rank_candidates_tie_order_cex :
    ((rank_candidates [⟨"A", 0, 0, 180⟩, ⟨"B", 0, 0, 0⟩] 0 0 13000 1 1 5).map
      (fun c => (c.score, c.dist_mi))) =
      [(0, EARTH_RADIUS_MI * Real.pi), (0, 0)] ∧
    0 < EARTH_RADIUS_MI * Real.pi := by
  have hdA : dist 0 0 (⟨"A", 0, 0, 180⟩ : Record) = EARTH_RADIUS_MI * Real.pi :=
    dist_antipode_eval "A" 0
  have hdB : dist 0 0 (⟨"B", 0, 0, 0⟩ : Record) = 0 := haversine_self 0 0
  have hcA : decide (dist 0 0 (⟨"A", 0, 0, 180⟩ : Record) ≤ 13000) = true := by
    apply decide_eq_true
    rw [hdA]
    unfold EARTH_RADIUS_MI
    nlinarith [Real.pi_lt_315]
  have hcB : decide (dist 0 0 (⟨"B", 0, 0, 0⟩ : Record) ≤ 13000) = true := by
    apply decide_eq_true
    rw [hdB]
    norm_num
  have hq : query_candidates [⟨"A", 0, 0, 180⟩, ⟨"B", 0, 0, 0⟩] 0 0 13000
      (max 300 ((5:ℤ) * 50)).toNat =
      [(0, ⟨"A", 0, 0, 180⟩), (1, ⟨"B", 0, 0, 0⟩)] := by
    unfold query_candidates
    dsimp only
    have hfil : List.filter (fun ir => decide (dist 0 0 ir.2 ≤ 13000))
        ([(⟨"A", 0, 0, 180⟩ : Record), ⟨"B", 0, 0, 0⟩]).enum =
        [(0, ⟨"A", 0, 0, 180⟩), (1, ⟨"B", 0, 0, 0⟩)] := by
      apply List.filter_eq_self.2
      intro a ha
      rcases List.mem_cons.1 ha with h1 | h1
      · subst h1; exact hcA
      · rcases List.mem_cons.1 h1 with h2 | h2
        · subst h2; exact hcB
        · simp at h2
    rw [hfil]
    simp
  have hsA : (mk_scored 0 0 1 1 (0, ⟨"A", 0, 0, 180⟩)).score = 0 := by
    simp [mk_scored, score_of]
  have hsB : (mk_scored 0 0 1 1 (1, ⟨"B", 0, 0, 0⟩)).score = 0 := by
    simp [mk_scored, score_of]
  constructor
  · unfold rank_candidates
    dsimp only
    rw [hq]
    rw [show (([(0, ⟨"A", 0, 0, 180⟩), (1, ⟨"B", 0, 0, 0⟩)] :
        List (ℕ × Record)).map (mk_scored 0 0 1 1)) =
      [mk_scored 0 0 1 1 (0, ⟨"A", 0, 0, 180⟩), mk_scored 0 0 1 1 (1, ⟨"B", 0, 0, 0⟩)]
      from rfl]
    have hsort : sort_values_desc (fun s => s.score)
        [mk_scored 0 0 1 1 (0, ⟨"A", 0, 0, 180⟩), mk_scored 0 0 1 1 (1, ⟨"B", 0, 0, 0⟩)] =
        [mk_scored 0 0 1 1 (0, ⟨"A", 0, 0, 180⟩), mk_scored 0 0 1 1 (1, ⟨"B", 0, 0, 0⟩)] := by
      unfold sort_values_desc sort_by_asc
      rw [show ([mk_scored 0 0 1 1 (0, ⟨"A", 0, 0, 180⟩),
        mk_scored 0 0 1 1 (1, ⟨"B", 0, 0, 0⟩)]).reverse =
        [mk_scored 0 0 1 1 (1, ⟨"B", 0, 0, 0⟩), mk_scored 0 0 1 1 (0, ⟨"A", 0, 0, 180⟩)]
        from by simp]
      simp only [List.insertionSort, List.orderedInsert]
      rw [if_pos (by rw [hsA, hsB])]
      simp
    rw [hsort]
    unfold dfHead
    rw [if_pos (by norm_num : (0:ℤ) ≤ 5)]
    rw [show ((5:ℤ).toNat) = 5 from rfl]
    simp only [List.take, List.map]
    rw [hsA, hsB]
    simp only [mk_scored, hdA, hdB]
  · have hR : (0:ℝ) < EARTH_RADIUS_MI := by norm_num [EARTH_RADIUS_MI]
    exact mul_pos hR Real.pi_pos

/-! ### Domain safety of the inverse-trigonometric step -/

/-- C2 (exact-arithmetic content): over the reals, for valid latitudes the
argument of `arcsin` — `sqrt a` with `a` the haversine intermediate — stays
within `[0, 1]` (so no domain error can arise from the mathematics itself)
and the returned distance is non-negative.  The source performs no clamp:
this bound is exact-arithmetic only, and float rounding can push `a` above
`1` on near-antipodal inputs. -/
theorem haversine_domain_safe_real (lat1 lon1 lat2 lon2 : ℝ)
    (h1a : -90 ≤ lat1) (h1b : lat1 ≤ 90) (h2a : -90 ≤ lat2) (h2b : lat2 ≤ 90) :
    0 ≤ hav_a lat1 lon1 lat2 lon2 ∧ hav_a lat1 lon1 lat2 lon2 ≤ 1 ∧
      0 ≤ haversine_mi_vectorized lat1 lon1 lat2 lon2 := by
  have hcc : 0 ≤ Real.cos (radians lat1) * Real.cos (radians lat2) :=
    mul_nonneg (cos_radians_nonneg _ h1a h1b) (cos_radians_nonneg _ h2a h2b)
  refine ⟨?_, ?_, haversine_nonneg _ _ _ _⟩
  · rw [hav_a_def]
    exact hav_a_rad_nonneg _ _ _ _ hcc
  · rw [hav_a_def]
    exact hav_a_rad_le_one _ _ _ _ hcc

/-- Witness for C2's exact-arithmetic theorem at an antipodal pair. -/
theorem haversine_domain_safe_real_witness :
    0 ≤ hav_a 0 0 0 180 ∧ hav_a 0 0 0 180 ≤ 1 ∧
      0 ≤ haversine_mi_vectorized 0 0 0 180 :=
  haversine_domain_safe_real 0 0 0 180 (by norm_num) (by norm_num) (by norm_num) (by norm_num)

/-! ### KDTree branch (spec-modelled) and branch equivalence

sklearn's `KDTree` is an external library, not repository code; its two
query operations are modelled from the spec's §4.2 contract and the
arguments the source passes them (coordinates and radius in radians,
`metric="haversine"`). -/

/-- The haversine metric as sklearn computes it: the central angle in
radians (so that the source converts with `* EARTH_RADIUS_MI` and
`/ EARTH_RADIUS_MI`). -/
noncomputable def ang_dist (lat lon : ℝ) (r : Record) : ℝ :=
  2 * Real.arcsin (Real.sqrt (hav_a lat lon r.center_lat r.center_lon))

theorem dist_eq_radius_mul_ang (lat lon : ℝ) (r : Record) :
    dist lat lon r = EARTH_RADIUS_MI * ang_dist lat lon r := by
  unfold dist ang_dist haversine_mi_vectorized
  ring

/-- Modelled from the spec: `kdt.query_radius(q, r)` (sklearn, missing from
src/) per §4.2 — returns every record whose metric distance to the query is
`≤ r`, no guaranteed order. -/
noncomputable def kdt_query_radius (df : List Record) (lat lon r_rad : ℝ) :
    List (ℕ × Record) :=
  df.enum.filter (fun ir => decide (ang_dist lat lon ir.2 ≤ r_rad))

/-- Modelled from the spec: `kdt.query(q, k)` (sklearn, missing from src/)
per §4.2 — up to `min(k, N)` records in ascending distance order, ties
broken by ascending record id. -/
noncomputable def kdt_query_k (df : List Record) (lat lon : ℝ) (k : ℕ) :
    List (ℕ × Record) :=
  (sort_by_asc (fun ir => ang_dist lat lon ir.2) df.enum).take k

/-- The KDTree branch of `_query_candidates` (src/rank.py lines 39–51):
radius query with `r = radius_mi / EARTH_RADIUS_MI`, else the nearest
`min(fallback_k, N)`. -/
noncomputable def query_candidates_kdt (df : List Record) (lat lon radius_mi : ℝ)
    (fallback_k : ℕ) : List (ℕ × Record) :=
  let idx := kdt_query_radius df lat lon (radius_mi / EARTH_RADIUS_MI)
  if idx.isEmpty then kdt_query_k df lat lon (min fallback_k df.length)
  else idx

/-- The KDTree branch of `nearest_street` (src/rank.py lines 97–102):
`kdt.query(q, k=1)`, distance converted by `* EARTH_RADIUS_MI`. -/
noncomputable def nearest_street_kdt (df : List Record) (lat lon : ℝ) :
    Option ((ℕ × Record) × ℝ) :=
  match kdt_query_k df lat lon 1 with
  | [] => none
  | best :: _ => some (best, ang_dist lat lon best.2 * EARTH_RADIUS_MI)

theorem orderedInsert_congr {α : Type*} (r s : α → α → Prop)
    [DecidableRel r] [DecidableRel s] (h : ∀ a b, r a b ↔ s a b) (a : α) :
    ∀ l, List.orderedInsert r a l = List.orderedInsert s a l := by
  intro l
  induction l with
  | nil => rfl
  | cons b t ih =>
    simp only [List.orderedInsert]
    by_cases hr : r a b
    · rw [if_pos hr, if_pos ((h a b).1 hr)]
    · rw [if_neg hr, if_neg (fun hs => hr ((h a b).2 hs)), ih]

theorem insertionSort_congr {α : Type*} (r s : α → α → Prop)
    [DecidableRel r] [DecidableRel s] (h : ∀ a b, r a b ↔ s a b) :
    ∀ l, List.insertionSort r l = List.insertionSort s l := by
  intro l
  induction l with
  | nil => rfl
  | cons b t ih =>
    simp only [List.insertionSort]
    rw [ih, orderedInsert_congr r s h]

theorem foldMinBy_congr {α : Type*} (f g : α → ℝ)
    (h : ∀ a b, f a < f b ↔ g a < g b) :
    ∀ (l : List α) (b : α), foldMinBy f b l = foldMinBy g b l := by
  intro l
  induction l with
  | nil => intro b; rfl
  | cons x t ih =>
    intro b
    by_cases hx : f x < f b
    · simp only [foldMinBy, if_pos hx, if_pos ((h x b).1 hx), ih]
    · simp only [foldMinBy, if_neg hx, if_neg (fun hg => hx ((h x b).2 hg)), ih]

theorem foldMinBy_eq_head {α : Type*} (key : α → ℝ) :
    ∀ (l : List α) (b : α), (∀ z ∈ l, key b ≤ key z) → foldMinBy key b l = b := by
  intro l
  induction l with
  | nil => intro b _; rfl
  | cons x t ih =>
    intro b hb
    have hxb : ¬ key x < key b := not_lt.2 (hb x (List.mem_cons_self x t))
    simp only [foldMinBy, if_neg hxb]
    exact ih b (fun z hz => hb z (List.mem_cons_of_mem x hz))

theorem foldMinBy_head_irrelevant {α : Type*} (key : α → ℝ) :
    ∀ (t : List α) (b b' : α), (∃ z ∈ t, key z < key b) → (∃ z ∈ t, key z < key b') →
      foldMinBy key b t = foldMinBy key b' t := by
  intro t
  induction t with
  | nil =>
    intro b b' h1 _
    obtain ⟨z, hz, _⟩ := h1
    simp at hz
  | cons y t ih =>
    intro b b' h1 h2
    by_cases hyb : key y < key b <;> by_cases hyb' : key y < key b'
    · simp only [foldMinBy, if_pos hyb, if_pos hyb']
    · simp only [foldMinBy, if_pos hyb, if_neg hyb']
      obtain ⟨z, hz, hzb'⟩ := h2
      have hzt : z ∈ t := by
        rcases List.mem_cons.1 hz with h | h
        · exact absurd (h ▸ hzb') hyb'
        · exact h
      exact ih y b' ⟨z, hzt, lt_of_lt_of_le hzb' (not_lt.1 hyb')⟩ ⟨z, hzt, hzb'⟩
    · simp only [foldMinBy, if_neg hyb, if_pos hyb']
      obtain ⟨z, hz, hzb⟩ := h1
      have hzt : z ∈ t := by
        rcases List.mem_cons.1 hz with h | h
        · exact absurd (h ▸ hzb) hyb
        · exact h
      exact ih b y ⟨z, hzt, hzb⟩ ⟨z, hzt, lt_of_lt_of_le hzb (not_lt.1 hyb)⟩
    · simp only [foldMinBy, if_neg hyb, if_neg hyb']
      obtain ⟨z1, hz1, hz1b⟩ := h1
      obtain ⟨z2, hz2, hz2b⟩ := h2
      have hz1t : z1 ∈ t := by
        rcases List.mem_cons.1 hz1 with h | h
        · exact absurd (h ▸ hz1b) hyb
        · exact h
      have hz2t : z2 ∈ t := by
        rcases List.mem_cons.1 hz2 with h | h
        · exact absurd (h ▸ hz2b) hyb'
        · exact h
      exact ih b b' ⟨z1, hz1t, hz1b⟩ ⟨z2, hz2t, hz2b⟩

/-- The head of the stable ascending insertion sort is exactly the first
minimum, i.e. what `np.argmin` selects. -/
theorem insertionSort_head_foldMinBy {α : Type*} (key : α → ℝ) :
    ∀ (l : List α) (b : α),
      (List.insertionSort (fun a c => key a ≤ key c) (b :: l)).head? =
        some (foldMinBy key b l) := by
  intro l
  induction l with
  | nil => intro b; rfl
  | cons y t ih =>
    intro b
    have ihy := ih y
    cases hS : List.insertionSort (fun a c => key a ≤ key c) (y :: t) with
    | nil => rw [hS] at ihy; simp at ihy
    | cons m S2 =>
      rw [hS] at ihy
      have hm : m = foldMinBy key y t := by
        simpa using ihy
      have hgoal : List.insertionSort (fun a c => key a ≤ key c) (b :: y :: t) =
          List.orderedInsert (fun a c => key a ≤ key c) b
            (List.insertionSort (fun a c => key a ≤ key c) (y :: t)) := rfl
      rw [hgoal, hS]
      simp only [List.orderedInsert]
      have hmy : key m ≤ key y := by
        rw [hm]
        exact foldMinBy_le key t y y (List.mem_cons_self y t)
      by_cases hbm : key b ≤ key m
      · rw [if_pos hbm]
      -- the new head is `b` itself; the fold also keeps `b`
        have hyb : ¬ key y < key b := not_lt.2 (le_trans hbm hmy)
        have hfold : foldMinBy key b (y :: t) = b := by
          simp only [foldMinBy, if_neg hyb]
          apply foldMinBy_eq_head
          intro z hz
          have : key m ≤ key z := by
            rw [hm]
            exact foldMinBy_le key t y z (List.mem_cons_of_mem y hz)
          exact le_trans hbm this
        rw [hfold]
        rfl
      · rw [if_neg hbm]
        have hmb : key m < key b := not_le.1 hbm
        by_cases hyb : key y < key b
        · have hfold : foldMinBy key b (y :: t) = foldMinBy key y t := by
            simp only [foldMinBy, if_pos hyb]
          rw [hfold, ← hm]
          rfl
        · have hstep : foldMinBy key b (y :: t) = foldMinBy key b t := by
            simp only [foldMinBy, if_neg hyb]
          have hmt : foldMinBy key y t ∈ t := by
            rcases List.mem_cons.1 (foldMinBy_mem key t y) with h | h
            · exfalso
              apply hyb
              have hkm : key m = key y := by rw [hm, h]
              rwa [hkm] at hmb
            · exact h
          have hmlty : key (foldMinBy key y t) < key y := by
            rcases lt_or_eq_of_le (hm ▸ hmy) with h | h
            · exact h
            · exfalso
              apply hyb
              have hkm : key m = key y := by rw [hm]; exact h
              rwa [hkm] at hmb
          have haux : foldMinBy key b t = foldMinBy key y t := by
            apply foldMinBy_head_irrelevant
            · exact ⟨foldMinBy key y t, hmt, hm ▸ hmb⟩
            · exact ⟨foldMinBy key y t, hmt, hmlty⟩
          rw [hstep, haux, ← hm]
          rfl

/-- C9: for every dataset, query point, radius and fallback count, the
indexed (KDTree, spec-modelled per §4.2) branch and the linear-scan branch
of the candidate retriever return the same candidate list, and the two
branches of the nearest-record lookup return the same record and the same
distance. -/
theorem spatial_branches_equivalent (df : List Record) (lat lon radius_mi : ℝ)
    (fallback_k : ℕ) :
    query_candidates_kdt df lat lon radius_mi fallback_k =
        query_candidates df lat lon radius_mi fallback_k ∧
      nearest_street_kdt df lat lon = nearest_street df lat lon := by
  have hR : (0:ℝ) < EARTH_RADIUS_MI := by norm_num [EARTH_RADIUS_MI]
  have hiff : ∀ ir : ℕ × Record,
      (ang_dist lat lon ir.2 ≤ radius_mi / EARTH_RADIUS_MI ↔
        dist lat lon ir.2 ≤ radius_mi) := by
    intro ir
    rw [dist_eq_radius_mul_ang, mul_comm]
    exact le_div_iff hR
  have hle_iff : ∀ a b : ℕ × Record,
      (ang_dist lat lon a.2 ≤ ang_dist lat lon b.2 ↔
        dist lat lon a.2 ≤ dist lat lon b.2) := by
    intro a b
    rw [dist_eq_radius_mul_ang, dist_eq_radius_mul_ang]
    exact (mul_le_mul_left hR).symm
  have hfil : kdt_query_radius df lat lon (radius_mi / EARTH_RADIUS_MI) =
      df.enum.filter (fun ir => decide (dist lat lon ir.2 ≤ radius_mi)) := by
    unfold kdt_query_radius
    apply List.filter_congr
    intro a _
    exact decide_eq_decide.2 (hiff a)
  have hsort : sort_by_asc (fun ir : ℕ × Record => ang_dist lat lon ir.2) df.enum =
      sort_by_asc (fun ir : ℕ × Record => dist lat lon ir.2) df.enum := by
    unfold sort_by_asc
    exact insertionSort_congr _ _ (fun a b => hle_iff a b) df.enum
  constructor
  · unfold query_candidates_kdt query_candidates kdt_query_k
    dsimp only
    rw [hfil, hsort]
  · unfold nearest_street_kdt kdt_query_k nearest_street
    cases df with
    | nil => rfl
    | cons r t =>
      have hsort2 : sort_by_asc (fun ir : ℕ × Record => ang_dist lat lon ir.2)
          ((0, r) :: List.enumFrom 1 t) =
          sort_by_asc (fun ir : ℕ × Record => dist lat lon ir.2)
            ((0, r) :: List.enumFrom 1 t) := hsort
      rw [show ((r :: t).enum) = (0, r) :: List.enumFrom 1 t from rfl, hsort2]
      have hhead : (sort_by_asc (fun ir : ℕ × Record => dist lat lon ir.2)
          ((0, r) :: List.enumFrom 1 t)).head? =
          some (foldMinBy (fun ir : ℕ × Record => dist lat lon ir.2) (0, r)
            (List.enumFrom 1 t)) :=
        insertionSort_head_foldMinBy _ _ _
      cases hS : sort_by_asc (fun ir : ℕ × Record => dist lat lon ir.2)
          ((0, r) :: List.enumFrom 1 t) with
      | nil => rw [hS] at hhead; simp at hhead
      | cons m S2 =>
        rw [hS] at hhead
        have hm : m = foldMinBy (fun ir : ℕ × Record => dist lat lon ir.2) (0, r)
            (List.enumFrom 1 t) := by
          simpa using hhead
        show some (m, ang_dist lat lon m.2 * EARTH_RADIUS_MI) =
          some (foldMinBy (fun ir : ℕ × Record => dist lat lon ir.2) (0, r)
              (List.enumFrom 1 t),
            dist lat lon (foldMinBy (fun ir : ℕ × Record => dist lat lon ir.2) (0, r)
              (List.enumFrom 1 t)).2)
        rw [← hm, dist_eq_radius_mul_ang, mul_comm]

end SFParking
